import Mathlib

/-!
Shallow embedding of the `prettify-cmark` crate (files `src/writer.rs` and
`src/printer.rs`): an event-driven pretty printer for CommonMark documents.

The Rust code is generic over an output sink `W: std::fmt::Write` whose
`write_str` either succeeds or fails with `fmt::Error` (a unit type).  We
model a sink as a state type `σ` together with a fallible append operation,
and every fallible Rust method `fn f(&mut self, ...) -> fmt::Result` becomes
a Lean function `State → Except Unit State`.

Machine integers: the only integer in the code is the `usize` list ordinal
and the `usize` deferred-space counter; both only grow by small increments
from small starts, so they are modelled as `Nat` (no overflow behaviour is
relevant to any claim).
-/

namespace PrettifyCmark

/-- A sink models `W: std::fmt::Write`: `writeStr` appends a string and can
fail with `fmt::Error` (modelled as `Unit`). -/
structure Sink (σ : Type) where
  writeStr : σ → String → Except Unit σ

/-- The `String` sink: `<String as fmt::Write>::write_str` always succeeds
and appends. -/
def stringSink : Sink String := ⟨fun s t => Except.ok (s ++ t)⟩

/-- A sink whose every write fails, to exercise the error paths. -/
def failSink : Sink Unit := ⟨fun _ _ => Except.error ()⟩

/-- Rust `" ".repeat(n)` from the Rust code. -/
def spaces (n : Nat) : String := String.mk (List.replicate n ' ')

/-- Rust `"#".repeat(n)` (and friends) from the Rust code. -/
def repeatStr (s : String) : Nat → String
  | 0 => ""
  | n + 1 => repeatStr s n ++ s

/-- From `writer.rs`: `enum Frame { ListItem(Option<usize>), BlockQuote }`. -/
inductive Frame where
  | ListItem : Option Nat → Frame
  | BlockQuote : Frame
deriving DecidableEq, Repr

/-- From `writer.rs`: `struct Output<W> { inner: W, needs_space: usize }`. -/
structure Output (σ : Type) where
  inner : σ
  needs_space : Nat
deriving Repr

/-- Rust `Output::write_text`: flush the pending deferred spaces (if any), then
write the literal text. -/
def Output.write_text (S : Sink σ) (o : Output σ) (text : String) :
    Except Unit (Output σ) :=
  if 0 < o.needs_space then
    match S.writeStr o.inner (spaces o.needs_space) with
    | Except.error e => Except.error e
    | Except.ok i =>
      match S.writeStr i text with
      | Except.error e => Except.error e
      | Except.ok i2 => Except.ok ⟨i2, 0⟩
  else
    match S.writeStr o.inner text with
    | Except.error e => Except.error e
    | Except.ok i => Except.ok ⟨i, o.needs_space⟩

/-- Rust `Output::write_hard_break`: zero the deferred spaces and write `"\n"`. -/
def Output.write_hard_break (S : Sink σ) (o : Output σ) :
    Except Unit (Output σ) :=
  match S.writeStr o.inner "\n" with
  | Except.error e => Except.error e
  | Except.ok i => Except.ok ⟨i, 0⟩

/-- Rust `Output::write_soft_break`: zero the deferred spaces and write `" "`. -/
def Output.write_soft_break (S : Sink σ) (o : Output σ) :
    Except Unit (Output σ) :=
  match S.writeStr o.inner " " with
  | Except.error e => Except.error e
  | Except.ok i => Except.ok ⟨i, 0⟩

/-- From `writer.rs`: `struct Writer<W> { prefix: String, frames: Vec<Frame>,
output: Output<W> }`.  The Rust `Vec` pushes and pops at the back; we store
the stack with its top as the list head, so the `Vec`'s front-to-back
(outermost-to-innermost) order is `frames.reverse`.  The Rust field
`prefix` is named `pfx` here. -/
structure Writer (σ : Type) where
  pfx : String
  frames : List Frame
  output : Output σ
deriving Repr

/-- Rust `Writer::new`. -/
def Writer.new (output : σ) ( pfx : String) : Writer σ :=
  ⟨pfx, [], ⟨output, 0⟩⟩

/-- Rust `Writer::push_frame`. -/
def Writer.push_frame (w : Writer σ) (frame : Frame) : Writer σ :=
  { w with frames := frame :: w.frames }

/-- Rust `Writer::pop_frame`: returns the popped frame (or `none`) together with
the updated writer. -/
def Writer.pop_frame (w : Writer σ) : Option Frame × Writer σ :=
  match w.frames with
  | [] => (none, w)
  | f :: fs => (some f, { w with frames := fs })

/-- Rust `Writer::write_text`. -/
def Writer.write_text (S : Sink σ) (w : Writer σ) (text : String) :
    Except Unit (Writer σ) :=
  match Output.write_text S w.output text with
  | Except.error e => Except.error e
  | Except.ok o => Except.ok { w with output := o }

/-- Rust `Writer::write_hard_break`. -/
def Writer.write_hard_break (S : Sink σ) (w : Writer σ) :
    Except Unit (Writer σ) :=
  match Output.write_hard_break S w.output with
  | Except.error e => Except.error e
  | Except.ok o => Except.ok { w with output := o }

/-- Rust `Writer::write_soft_break`. -/
def Writer.write_soft_break (S : Sink σ) (w : Writer σ) :
    Except Unit (Writer σ) :=
  match Output.write_soft_break S w.output with
  | Except.error e => Except.error e
  | Except.ok o => Except.ok { w with output := o }

/-- Rust `Writer::write_non_breaking_space`: increment the deferred-space counter
and return `Ok(())`; the sink is never touched. -/
def Writer.write_non_breaking_space (_S : Sink σ) (w : Writer σ) :
    Except Unit (Writer σ) :=
  Except.ok { w with output := { w.output with needs_space := w.output.needs_space + 1 } }

/-- The body of the `for frame in &self.frames[..]` loop in
`Writer::write_indent`. -/
def Writer.indentFrame (S : Sink σ) (o : Output σ) : Frame → Except Unit (Output σ)
  | Frame.ListItem none =>
      Except.ok { o with needs_space := o.needs_space + 2 }
  | Frame.ListItem (some index) =>
      Except.ok { o with needs_space := o.needs_space + (index / 10 + 3) }
  | Frame.BlockQuote =>
      match Output.write_text S o ">" with
      | Except.error e => Except.error e
      | Except.ok o2 => Except.ok { o2 with needs_space := o2.needs_space + 1 }

/-- Rust `Writer::write_indent`: write the fixed prefix straight to the sink
(bypassing the deferred-space logic), then fold the per-frame contributions
over the stack from outermost to innermost. -/
def Writer.write_indent (S : Sink σ) (w : Writer σ) : Except Unit (Writer σ) :=
  match S.writeStr w.output.inner w.pfx with
  | Except.error e => Except.error e
  | Except.ok i =>
    match (w.frames.reverse).foldlM (Writer.indentFrame S) ⟨i, w.output.needs_space⟩ with
    | Except.error e => Except.error e
    | Except.ok o => Except.ok { w with output := o }

/-- Rust `pulldown_cmark::Tag` (the vocabulary actually matched by
`printer.rs`; data irrelevant to the printer is reduced to the pieces it
reads). -/
inductive Tag where
  | Paragraph : Tag
  | Rule : Tag
  | Header : Nat → Tag
  | List : Option Nat → Tag
  | Item : Tag
  | BlockQuote : Tag
  | CodeBlock : String → Tag
  | Emphasis : Tag
  | Strong : Tag
  | Code : Tag
  | Link : String → String → Tag
  | Image : String → String → Tag
  | FootnoteDefinition : String → Tag
  | Table : Tag
  | TableHead : Tag
  | TableRow : Tag
  | TableCell : Tag
deriving DecidableEq, Repr

/-- Rust `pulldown_cmark::Event` as matched by `printer.rs`. -/
inductive Event where
  | Start : Tag → Event
  | End : Tag → Event
  | Text : String → Event
  | Html : String → Event
  | InlineHtml : String → Event
  | FootnoteReference : String → Event
  | SoftBreak : Event
  | HardBreak : Event
deriving DecidableEq, Repr

/-- From `printer.rs`: `struct PrettyPrinter<W> { writer: Writer<W>,
needs_break: bool }`. -/
structure PrettyPrinter (σ : Type) where
  writer : Writer σ
  needs_break : Bool
deriving Repr

/-- Rust `PrettyPrinter::new_with_prefix`. -/
def PrettyPrinter.new_prefixed (write : σ) ( pfx : String) : PrettyPrinter σ :=
  ⟨Writer.new write pfx, false⟩

/-- Rust `PrettyPrinter::new` (empty prefix). -/
def PrettyPrinter.new (write : σ) : PrettyPrinter σ :=
  PrettyPrinter.new_prefixed write ""

/-- Rust `PrettyPrinter::flush_break`: when `needs_break` is set, emit a hard
break plus indent twice (one blank, indented line); always clear
`needs_break` afterwards. -/
def PrettyPrinter.flush_break (S : Sink σ) (p : PrettyPrinter σ) :
    Except Unit (PrettyPrinter σ) :=
  if p.needs_break then
    match Writer.write_hard_break S p.writer with
    | Except.error e => Except.error e
    | Except.ok w1 =>
      match Writer.write_indent S w1 with
      | Except.error e => Except.error e
      | Except.ok w2 =>
        match Writer.write_hard_break S w2 with
        | Except.error e => Except.error e
        | Except.ok w3 =>
          match Writer.write_indent S w3 with
          | Except.error e => Except.error e
          | Except.ok w4 => Except.ok ⟨w4, false⟩
  else
    Except.ok ⟨p.writer, false⟩

/-- Rust `str::split('\n')` on the underlying character list: the (possibly
empty) chunks between line-feed characters, in order.  `split` always yields
at least one chunk (`"".split('\n')` is `[""]`), and a trailing line feed
yields a trailing empty chunk. -/
def splitNLChars : List Char → List (List Char)
  | [] => [[]]
  | c :: cs =>
    if c = '\n' then [] :: splitNLChars cs
    else
      match splitNLChars cs with
      | [] => [[c]]
      | l :: ls => (c :: l) :: ls

/-- Rust `text.split('\n')` as a list of strings. -/
def splitNL (text : String) : List String :=
  (splitNLChars text.data).map String.mk

/-- Helper used by the `Event::Text` arm of `push_event`: the iterations of
the `for (i, line) in text.split('\n').enumerate()` loop with `i > 0`
(hard break, indent, then the line's literal text). -/
def PrettyPrinter.textLine (S : Sink σ) (w : Writer σ) (line : String) :
    Except Unit (Writer σ) :=
  match Writer.write_hard_break S w with
  | Except.error e => Except.error e
  | Except.ok w1 =>
    match Writer.write_indent S w1 with
    | Except.error e => Except.error e
    | Except.ok w2 => Writer.write_text S w2 line

/-- Rust `PrettyPrinter::push_event`. -/
def PrettyPrinter.push_event (S : Sink σ) (p : PrettyPrinter σ) :
    Event → Except Unit (PrettyPrinter σ)
  | Event.Start tag =>
    match tag with
    | Tag.Paragraph => PrettyPrinter.flush_break S p
    | Tag.Rule =>
      match PrettyPrinter.flush_break S p with
      | Except.error e => Except.error e
      | Except.ok p1 =>
        match Writer.write_text S p1.writer "---" with
        | Except.error e => Except.error e
        | Except.ok w => Except.ok { p1 with writer := w }
    | Tag.Header indent =>
      match PrettyPrinter.flush_break S p with
      | Except.error e => Except.error e
      | Except.ok p1 =>
        match Writer.write_text S p1.writer (repeatStr "#" indent) with
        | Except.error e => Except.error e
        | Except.ok w =>
          match Writer.write_non_breaking_space S w with
          | Except.error e => Except.error e
          | Except.ok w2 => Except.ok { p1 with writer := w2 }
    | Tag.List start =>
      match PrettyPrinter.flush_break S p with
      | Except.error e => Except.error e
      | Except.ok p1 =>
        Except.ok { p1 with writer := Writer.push_frame p1.writer (Frame.ListItem start) }
    | Tag.Item =>
      match Writer.pop_frame p.writer with
      | (some (Frame.ListItem none), w0) =>
        match PrettyPrinter.flush_break S ⟨w0, p.needs_break⟩ with
        | Except.error e => Except.error e
        | Except.ok p1 =>
          match Writer.write_text S p1.writer "-" with
          | Except.error e => Except.error e
          | Except.ok w =>
            match Writer.write_non_breaking_space S w with
            | Except.error e => Except.error e
            | Except.ok w2 =>
              Except.ok { p1 with writer := Writer.push_frame w2 (Frame.ListItem none) }
      | (some (Frame.ListItem (some index)), w0) =>
        match PrettyPrinter.flush_break S ⟨w0, p.needs_break⟩ with
        | Except.error e => Except.error e
        | Except.ok p1 =>
          match Writer.write_text S p1.writer (toString index ++ ".") with
          | Except.error e => Except.error e
          | Except.ok w =>
            match Writer.write_non_breaking_space S w with
            | Except.error e => Except.error e
            | Except.ok w2 =>
              Except.ok { p1 with writer := Writer.push_frame w2 (Frame.ListItem (some (index + 1))) }
      | (_, w0) => Except.ok { p with writer := w0 }
    | Tag.BlockQuote =>
      match PrettyPrinter.flush_break S p with
      | Except.error e => Except.error e
      | Except.ok p1 =>
        match Writer.write_text S p1.writer ">" with
        | Except.error e => Except.error e
        | Except.ok w =>
          match Writer.write_non_breaking_space S w with
          | Except.error e => Except.error e
          | Except.ok w2 =>
            Except.ok { p1 with writer := Writer.push_frame w2 Frame.BlockQuote }
    | Tag.CodeBlock note =>
      match PrettyPrinter.flush_break S p with
      | Except.error e => Except.error e
      | Except.ok p1 =>
        match Writer.write_text S p1.writer ("```" ++ note) with
        | Except.error e => Except.error e
        | Except.ok w =>
          match Writer.write_hard_break S w with
          | Except.error e => Except.error e
          | Except.ok w2 =>
            match Writer.write_indent S w2 with
            | Except.error e => Except.error e
            | Except.ok w3 => Except.ok { p1 with writer := w3 }
    | Tag.Emphasis =>
      match Writer.write_text S p.writer "*" with
      | Except.error e => Except.error e
      | Except.ok w => Except.ok { p with writer := w }
    | Tag.Strong =>
      match Writer.write_text S p.writer "**" with
      | Except.error e => Except.error e
      | Except.ok w => Except.ok { p with writer := w }
    | Tag.Code =>
      match Writer.write_text S p.writer "`" with
      | Except.error e => Except.error e
      | Except.ok w => Except.ok { p with writer := w }
    | Tag.Link _ _ =>
      match Writer.write_text S p.writer "[" with
      | Except.error e => Except.error e
      | Except.ok w => Except.ok { p with writer := w }
    | Tag.Image _ _ =>
      match Writer.write_text S p.writer "![" with
      | Except.error e => Except.error e
      | Except.ok w => Except.ok { p with writer := w }
    | Tag.FootnoteDefinition _ => Except.ok p
    | Tag.Table => Except.ok p
    | Tag.TableHead => Except.ok p
    | Tag.TableRow => Except.ok p
    | Tag.TableCell => Except.ok p
  | Event.End tag =>
    match tag with
    | Tag.Paragraph => Except.ok { p with needs_break := true }
    | Tag.Rule => Except.ok { p with needs_break := true }
    | Tag.Header _ => Except.ok { p with needs_break := true }
    | Tag.List _ =>
      Except.ok { p with writer := (Writer.pop_frame p.writer).2, needs_break := true }
    | Tag.Item => Except.ok { p with needs_break := true }
    | Tag.BlockQuote =>
      Except.ok { p with writer := (Writer.pop_frame p.writer).2, needs_break := true }
    | Tag.CodeBlock _ =>
      match Writer.write_text S p.writer "```" with
      | Except.error e => Except.error e
      | Except.ok w => Except.ok { p with writer := w, needs_break := true }
    | Tag.Emphasis =>
      match Writer.write_text S p.writer "*" with
      | Except.error e => Except.error e
      | Except.ok w => Except.ok { p with writer := w }
    | Tag.Strong =>
      match Writer.write_text S p.writer "**" with
      | Except.error e => Except.error e
      | Except.ok w => Except.ok { p with writer := w }
    | Tag.Code =>
      match Writer.write_text S p.writer "`" with
      | Except.error e => Except.error e
      | Except.ok w => Except.ok { p with writer := w }
    | Tag.Link url title =>
      match Writer.write_text S p.writer
          (if title.isEmpty then "](" ++ url ++ ")"
           else "](" ++ url ++ " \"" ++ title ++ "\")") with
      | Except.error e => Except.error e
      | Except.ok w => Except.ok { p with writer := w }
    | Tag.Image url title =>
      match Writer.write_text S p.writer
          (if title.isEmpty then "](" ++ url ++ ")"
           else "](" ++ url ++ " \"" ++ title ++ "\")") with
      | Except.error e => Except.error e
      | Except.ok w => Except.ok { p with writer := w }
    | Tag.FootnoteDefinition _ => Except.ok p
    | Tag.Table => Except.ok p
    | Tag.TableHead => Except.ok p
    | Tag.TableRow => Except.ok p
    | Tag.TableCell => Except.ok p
  | Event.Text text =>
    match splitNL text with
    | [] => Except.ok p
    | l :: ls =>
      match Writer.write_text S p.writer l with
      | Except.error e => Except.error e
      | Except.ok w =>
        match ls.foldlM (PrettyPrinter.textLine S) w with
        | Except.error e => Except.error e
        | Except.ok w2 => Except.ok { p with writer := w2 }
  | Event.Html _ => Except.ok p
  | Event.InlineHtml html =>
    match Writer.write_text S p.writer html with
    | Except.error e => Except.error e
    | Except.ok w => Except.ok { p with writer := w }
  | Event.FootnoteReference _ => Except.ok p
  | Event.SoftBreak =>
    match Writer.write_soft_break S p.writer with
    | Except.error e => Except.error e
    | Except.ok w => Except.ok { p with writer := w }
  | Event.HardBreak =>
    match Writer.write_text S p.writer "\\" with
    | Except.error e => Except.error e
    | Except.ok w =>
      match Writer.write_hard_break S w with
      | Except.error e => Except.error e
      | Except.ok w2 =>
        match Writer.write_indent S w2 with
        | Except.error e => Except.error e
        | Except.ok w3 => Except.ok { p with writer := w3 }

/-- Rust `PrettyPrinter::push_events`: sequential fold over `push_event`,
propagating the first failure. -/
def PrettyPrinter.push_events (S : Sink σ) (p : PrettyPrinter σ) :
    List Event → Except Unit (PrettyPrinter σ)
  | [] => Except.ok p
  | e :: es =>
    match PrettyPrinter.push_event S p e with
    | Except.error f => Except.error f
    | Except.ok p2 => PrettyPrinter.push_events S p2 es

/-! ### Specification-side definitions used to state the properties -/

/-- Pure rendering of the `write_indent` frame loop: starting from an
already-written accumulator `acc` and a pending-space count `ns`, process
the frames in outermost-to-innermost order and return the text written to
the sink together with the final pending-space count. -/
def indentGo (acc : String) (ns : Nat) : List Frame → String × Nat
  | [] => (acc, ns)
  | Frame.ListItem none :: fs => indentGo acc (ns + 2) fs
  | Frame.ListItem (some index) :: fs => indentGo acc (ns + (index / 10 + 3)) fs
  | Frame.BlockQuote :: fs => indentGo (acc ++ spaces ns ++ ">") 1 fs

/-- The text a `write_indent` call appends to the sink when it starts with
no pending spaces: the fixed prefix followed by the frame contributions
(only block-quote markers and the spaces flushed before them are visible;
list-item widths stay deferred). -/
def indentText ( pfx : String) (frames : List Frame) : String :=
  pfx ++ (indentGo "" 0 frames.reverse).1

/-- The pending-space count left over by a `write_indent` call that starts
with no pending spaces. -/
def indentNs (frames : List Frame) : Nat :=
  (indentGo "" 0 frames.reverse).2

/-- The block-close events that only set `needs_break` (no stack pop, no
sink write): `End(Paragraph)`, `End(Rule)`, `End(Heading)`, `End(Item)`. -/
def isSimpleClose : Event → Bool
  | Event.End Tag.Paragraph => true
  | Event.End Tag.Rule => true
  | Event.End (Tag.Header _) => true
  | Event.End Tag.Item => true
  | _ => false

/-- All block-closing `End` events (the ones whose handler sets
`needs_break`). -/
def isBlockClose : Event → Bool
  | Event.End Tag.Paragraph => true
  | Event.End Tag.Rule => true
  | Event.End (Tag.Header _) => true
  | Event.End (Tag.List _) => true
  | Event.End Tag.Item => true
  | Event.End Tag.BlockQuote => true
  | Event.End (Tag.CodeBlock _) => true
  | _ => false

/-- One ordered-list item whose body is the single text `"x"`. -/
def itemChunk : List Event :=
  [Event.Start Tag.Item, Event.Text "x", Event.End Tag.Item]

/-- A list of `k` consecutive copies of `itemChunk`. -/
def flatItems : Nat → List Event
  | 0 => []
  | k + 1 => flatItems k ++ itemChunk

/-- An ordered list declared to start at `s`, holding `k` items with body
`"x"` (the list is left open; closing it only pops the frame and sets
`needs_break`). -/
def flatOrderedList (s k : Nat) : List Event :=
  Event.Start (Tag.List (some s)) :: flatItems k

/-- Expected output of `flatOrderedList s k` under the empty prefix: the
markers carry the strictly sequential ordinals `s, s+1, ..., s+k-1`. -/
def orderedListOutput (s : Nat) : Nat → String
  | 0 => ""
  | k + 1 =>
    orderedListOutput s k ++ (if k = 0 then "" else "\n\n") ++
      toString (s + k) ++ ". x"

/-- Expected output of the continuation lines of a `Text` event: every line
after the first is preceded by a hard break and a fresh indent (whose
leftover deferred spaces are flushed by the line's literal text). -/
def linesOut (ind : String) (indNs : Nat) : List String → String
  | [] => ""
  | l :: ls => "\n" ++ ind ++ spaces indNs ++ l ++ linesOut ind indNs ls

/-! ### Helper lemmas: the primitives over the `String` sink -/

theorem spaces_zero : spaces 0 = "" := rfl

theorem stringSink_writeStr (s t : String) :
    stringSink.writeStr s t = Except.ok (s ++ t) := rfl

theorem output_write_text_string (i : String) (ns : Nat) (t : String) :
    Output.write_text stringSink ⟨i, ns⟩ t = Except.ok ⟨i ++ spaces ns ++ t, 0⟩ := by
  by_cases h : 0 < ns
  · simp [Output.write_text, stringSink, h]
  · have hns : ns = 0 := Nat.eq_zero_of_not_pos h
    subst hns
    simp [Output.write_text, stringSink, spaces_zero, String.append_empty]

theorem writer_write_text_string ( pfxs : String) (fs : List Frame)
    (i : String) (ns : Nat) (t : String) :
    Writer.write_text stringSink ⟨pfxs, fs, ⟨i, ns⟩⟩ t =
      Except.ok ⟨pfxs, fs, ⟨i ++ spaces ns ++ t, 0⟩⟩ := by
  simp [Writer.write_text, output_write_text_string]

theorem writer_write_hard_break_string ( pfxs : String) (fs : List Frame)
    (i : String) (ns : Nat) :
    Writer.write_hard_break stringSink ⟨pfxs, fs, ⟨i, ns⟩⟩ =
      Except.ok ⟨pfxs, fs, ⟨i ++ "\n", 0⟩⟩ := rfl

theorem writer_write_soft_break_string ( pfxs : String) (fs : List Frame)
    (i : String) (ns : Nat) :
    Writer.write_soft_break stringSink ⟨pfxs, fs, ⟨i, ns⟩⟩ =
      Except.ok ⟨pfxs, fs, ⟨i ++ " ", 0⟩⟩ := rfl

theorem foldlM_indentFrame_string (fs : List Frame) :
    ∀ (i : String) (ns : Nat),
      fs.foldlM (Writer.indentFrame stringSink) ⟨i, ns⟩ =
        Except.ok ⟨(indentGo i ns fs).1, (indentGo i ns fs).2⟩ := by
  induction fs with
  | nil => intro i ns; rfl
  | cons f fs ih =>
    intro i ns
    cases f with
    | ListItem o =>
      cases o with
      | none => simpa [List.foldlM, indentGo, Writer.indentFrame] using ih i (ns + 2)
      | some index =>
        simpa [List.foldlM, indentGo, Writer.indentFrame] using ih i (ns + (index / 10 + 3))
    | BlockQuote =>
      simpa [List.foldlM, indentGo, Writer.indentFrame, output_write_text_string]
        using ih (i ++ spaces ns ++ ">") 1

theorem writer_write_indent_string ( pfxs : String) (fs : List Frame)
    (i : String) (ns : Nat) :
    Writer.write_indent stringSink ⟨pfxs, fs, ⟨i, ns⟩⟩ =
      Except.ok ⟨pfxs, fs,
        ⟨(indentGo (i ++ pfxs) ns fs.reverse).1, (indentGo (i ++ pfxs) ns fs.reverse).2⟩⟩ := by
  simp only [Writer.write_indent, stringSink_writeStr, foldlM_indentFrame_string]

theorem indentGo_fst_append (fs : List Frame) :
    ∀ (a b : String) (ns : Nat), (indentGo (a ++ b) ns fs).1 = a ++ (indentGo b ns fs).1 := by
  induction fs with
  | nil => intro a b ns; rfl
  | cons f fs ih =>
    intro a b ns
    cases f with
    | ListItem o => cases o <;> simp [indentGo, ih]
    | BlockQuote =>
      simp only [indentGo, String.append_assoc]
      exact ih a (b ++ (spaces ns ++ ">")) 1

theorem indentGo_snd_acc (fs : List Frame) :
    ∀ (a b : String) (ns : Nat), (indentGo a ns fs).2 = (indentGo b ns fs).2 := by
  induction fs with
  | nil => intro a b ns; rfl
  | cons f fs ih =>
    intro a b ns
    cases f with
    | ListItem o => cases o <;> (simp only [indentGo]; apply ih)
    | BlockQuote => simp only [indentGo]; apply ih

theorem writer_write_indent_string0 ( pfxs : String) (fs : List Frame) (i : String) :
    Writer.write_indent stringSink ⟨pfxs, fs, ⟨i, 0⟩⟩ =
      Except.ok ⟨pfxs, fs, ⟨i ++ indentText pfxs fs, indentNs fs⟩⟩ := by
  rw [writer_write_indent_string]
  have h1 : (indentGo (i ++ pfxs) 0 fs.reverse).1 = i ++ indentText pfxs fs := by
    have := indentGo_fst_append fs.reverse (i ++ pfxs) "" 0
    rw [String.append_empty] at this
    rw [this, indentText, String.append_assoc]
  have h2 : (indentGo (i ++ pfxs) 0 fs.reverse).2 = indentNs fs :=
    indentGo_snd_acc fs.reverse (i ++ pfxs) "" 0
  rw [h1, h2]

theorem flush_break_of_false (p : PrettyPrinter String) (h : p.needs_break = false) :
    PrettyPrinter.flush_break stringSink p = Except.ok ⟨p.writer, false⟩ := by
  simp [PrettyPrinter.flush_break, h]

theorem flush_break_of_true ( pfxs : String) (fs : List Frame) (i : String) (ns : Nat) :
    PrettyPrinter.flush_break stringSink ⟨⟨pfxs, fs, ⟨i, ns⟩⟩, true⟩ =
      Except.ok ⟨⟨pfxs, fs,
        ⟨i ++ "\n" ++ indentText pfxs fs ++ "\n" ++ indentText pfxs fs, indentNs fs⟩⟩, false⟩ := by
  have hb : Writer.write_hard_break stringSink
      (⟨pfxs, fs, ⟨i ++ "\n" ++ indentText pfxs fs, indentNs fs⟩⟩ : Writer String) =
      Except.ok ⟨pfxs, fs, ⟨i ++ "\n" ++ indentText pfxs fs ++ "\n", 0⟩⟩ :=
    writer_write_hard_break_string ..
  simp [PrettyPrinter.flush_break, writer_write_hard_break_string,
    writer_write_indent_string0, hb]

/-! ### Helper lemmas: block-close events -/

theorem simple_close_step {σ : Type} (S : Sink σ) (p : PrettyPrinter σ)
    (e : Event) (h : isSimpleClose e = true) :
    PrettyPrinter.push_event S p e = Except.ok ⟨p.writer, true⟩ := by
  cases e <;> (try exact Bool.noConfusion h) <;> rename_i tag <;>
    cases tag <;> (try exact Bool.noConfusion h) <;> rfl

theorem simple_close_run {σ : Type} (S : Sink σ) :
    ∀ (es : List Event), (∀ e ∈ es, isSimpleClose e = true) →
      ∀ (p : PrettyPrinter σ),
        PrettyPrinter.push_events S p es =
          Except.ok ⟨p.writer, if es = [] then p.needs_break else true⟩ := by
  intro es
  induction es with
  | nil => intro _ p; rfl
  | cons e es ih =>
    intro h p
    have he : isSimpleClose e = true := h e (List.mem_cons_self ..)
    have hes : ∀ e ∈ es, isSimpleClose e = true := fun x hx => h x (List.mem_cons_of_mem _ hx)
    simp only [PrettyPrinter.push_events, simple_close_step S p e he, ih hes]
    cases es <;> simp

theorem flush_break_ok_nb {σ : Type} (S : Sink σ) (p p1 : PrettyPrinter σ)
    (hh : PrettyPrinter.flush_break S p = Except.ok p1) : p1.needs_break = false := by
  unfold PrettyPrinter.flush_break at hh
  repeat' split at hh
  all_goals
    first
      | exact Except.noConfusion hh
      | (injection hh with h5; rw [← h5])

theorem nb_false_preserved {σ : Type} (S : Sink σ) (e : Event)
    (hbc : isBlockClose e = false) :
    ∀ (p q : PrettyPrinter σ), p.needs_break = false →
      PrettyPrinter.push_event S p e = Except.ok q → q.needs_break = false := by
  intro p q hp h
  cases e with
  | Start tag =>
    cases tag <;> simp only [PrettyPrinter.push_event] at h <;>
      (repeat' split at h) <;>
      first
        | exact Except.noConfusion h
        | solve_by_elim [flush_break_ok_nb]
        | (injection h with h2; subst h2;
           first
             | exact hp
             | (dsimp only [PrettyPrinter.needs_break];
                solve_by_elim [flush_break_ok_nb])
             | solve_by_elim [flush_break_ok_nb])
  | End tag =>
    cases tag <;> (try exact Bool.noConfusion hbc) <;>
      simp only [PrettyPrinter.push_event] at h <;>
      (repeat' split at h) <;>
      first
        | exact Except.noConfusion h
        | (injection h with h2; rw [← h2]; exact hp)
  | Text t =>
    simp only [PrettyPrinter.push_event] at h
    repeat' split at h
    all_goals
      first
        | exact Except.noConfusion h
        | (injection h with h2; rw [← h2]; exact hp)
  | Html t =>
    injection h with h2; rw [← h2]; exact hp
  | InlineHtml t =>
    simp only [PrettyPrinter.push_event] at h
    repeat' split at h
    all_goals
      first
        | exact Except.noConfusion h
        | (injection h with h2; rw [← h2]; exact hp)
  | FootnoteReference t =>
    injection h with h2; rw [← h2]; exact hp
  | SoftBreak =>
    simp only [PrettyPrinter.push_event] at h
    repeat' split at h
    all_goals
      first
        | exact Except.noConfusion h
        | (injection h with h2; rw [← h2]; exact hp)
  | HardBreak =>
    simp only [PrettyPrinter.push_event] at h
    repeat' split at h
    all_goals
      first
        | exact Except.noConfusion h
        | (injection h with h2; rw [← h2]; exact hp)

theorem push_events_append {σ : Type} (S : Sink σ) (es₁ es₂ : List Event) :
    ∀ p : PrettyPrinter σ,
      PrettyPrinter.push_events S p (es₁ ++ es₂) =
        Except.bind (PrettyPrinter.push_events S p es₁)
          (fun q => PrettyPrinter.push_events S q es₂) := by
  induction es₁ with
  | nil => intro p; rfl
  | cons e es ih =>
    intro p
    simp only [List.cons_append, PrettyPrinter.push_events]
    cases PrettyPrinter.push_event S p e with
    | error f => rfl
    | ok q => exact ih q

theorem textLine_string ( pfxs : String) (fs : List Frame) (i : String) (ns : Nat)
    (line : String) :
    PrettyPrinter.textLine stringSink ⟨pfxs, fs, ⟨i, ns⟩⟩ line =
      Except.ok ⟨pfxs, fs,
        ⟨i ++ "\n" ++ indentText pfxs fs ++ spaces (indentNs fs) ++ line, 0⟩⟩ := by
  simp only [PrettyPrinter.textLine, writer_write_hard_break_string,
    writer_write_indent_string0, writer_write_text_string]

theorem except_ok_bind {ε α β : Type} (a : α) (f : α → Except ε β) :
    (Except.ok a : Except ε α) >>= f = f a := rfl

theorem except_bind_ok {ε α β : Type} (a : α) (f : α → Except ε β) :
    Except.bind (Except.ok a) f = f a := rfl

theorem except_pure {ε α : Type} (a : α) : (pure a : Except ε α) = Except.ok a := rfl

theorem textFold_string (ls : List String) :
    ∀ ( pfxs : String) (fs : List Frame) (i : String),
      ls.foldlM (PrettyPrinter.textLine stringSink) ⟨pfxs, fs, ⟨i, 0⟩⟩ =
        Except.ok ⟨pfxs, fs,
          ⟨i ++ linesOut (indentText pfxs fs) (indentNs fs) ls, 0⟩⟩ := by
  induction ls with
  | nil =>
    intro pfxs fs i
    simp only [List.foldlM, linesOut, String.append_empty]
    rfl
  | cons l ls ih =>
    intro pfxs fs i
    simp only [List.foldlM, textLine_string, except_ok_bind]
    rw [ih]
    simp [linesOut, String.append_assoc]

theorem spaces_one : spaces 1 = " " := rfl

theorem nl_nl : ("\n" : String) ++ "\n" = "\n\n" := rfl

theorem dot_space_x : ("." : String) ++ (" " ++ "x") = ". x" := rfl

theorem indentText_nil : indentText "" [] = "" := rfl

theorem indentNs_nil : indentNs [] = 0 := rfl

theorem splitNL_x : splitNL "x" = ["x"] := rfl

theorem flush_break_false' (w : Writer String) :
    PrettyPrinter.flush_break stringSink ⟨w, false⟩ = Except.ok ⟨w, false⟩ :=
  flush_break_of_false ⟨w, false⟩ rfl

theorem item_step (m : Nat) (out : String) (nb : Bool) :
    PrettyPrinter.push_events stringSink
        ⟨⟨"", [Frame.ListItem (some m)], ⟨out, 0⟩⟩, nb⟩ itemChunk =
      Except.ok ⟨⟨"", [Frame.ListItem (some (m + 1))],
        ⟨out ++ (if nb then "\n\n" else "") ++ toString m ++ ". x", 0⟩⟩, true⟩ := by
  cases nb with
  | false =>
    simp only [itemChunk, PrettyPrinter.push_events, PrettyPrinter.push_event,
      Writer.pop_frame, flush_break_false', writer_write_text_string,
      Writer.write_non_breaking_space, Writer.push_frame, splitNL_x,
      List.foldlM, spaces_zero, spaces_one]
    simp [String.append_assoc, String.append_empty, String.empty_append,
      spaces_one, except_pure, dot_space_x]
  | true =>
    simp only [itemChunk, PrettyPrinter.push_events, PrettyPrinter.push_event,
      Writer.pop_frame, flush_break_of_true, writer_write_text_string,
      Writer.write_non_breaking_space, Writer.push_frame, splitNL_x,
      List.foldlM, spaces_zero, spaces_one, indentText_nil, indentNs_nil]
    simp [String.append_assoc, String.append_empty, String.empty_append,
      spaces_one, except_pure, dot_space_x, nl_nl]

theorem flat_items_run (s : Nat) :
    ∀ k : Nat,
      PrettyPrinter.push_events stringSink
          ⟨⟨"", [Frame.ListItem (some s)], ⟨"", 0⟩⟩, false⟩ (flatItems k) =
        Except.ok ⟨⟨"", [Frame.ListItem (some (s + k))],
          ⟨orderedListOutput s k, 0⟩⟩, k != 0⟩ := by
  intro k
  induction k with
  | zero => rfl
  | succ k ih =>
    rw [flatItems, push_events_append, ih, except_bind_ok, item_step]
    have hsep : (if (k != 0) = true then "\n\n" else "") =
        (if k = 0 then "" else "\n\n") := by
      cases k <;> rfl
    rw [hsep]
    rfl

/-! ### The claims -/

/-- Claim C1: (the code, evaluated at the failing input): constructing a
printer with the non-empty line prefix `"///"` and pushing the events of
the one-paragraph document `"Lorem"` produces the output `"Lorem"`, whose
(only and first) physical line does not begin with the prefix: no string
`t` satisfies `"Lorem" = "///" ++ t`.  `write_indent` — the only place the
prefix is written — is invoked only after a hard break, never before the
first line, contradicting the crate's own doc-test, which expects the first
line `"/// Lorem *ipsum*!"`. -/
theorem c1_first_line_lacks_prefix :
    PrettyPrinter.push_events stringSink (PrettyPrinter.new_prefixed "" "///")
      [Event.Start Tag.Paragraph, Event.Text "Lorem", Event.End Tag.Paragraph] =
      Except.ok ⟨⟨"///", [], ⟨"Lorem", 0⟩⟩, true⟩ ∧
    ∀ t : String, "Lorem" ≠ "///" ++ t := by
  refine ⟨rfl, ?_⟩
  rintro ⟨l⟩ h
  have h3 := congrArg (fun s : String => s.data.head?) h
  have h4 : (some 'L' : Option Char) = some '/' := h3
  exact absurd (Option.some.inj h4) (by decide)

/-- Claim C2: (counterexample): the claim says a `ListItem(Some(n))` frame adds
`digit_count(n) + 3` deferred spaces.  At `n = 1` the code
(`(index / 10) + 3`) adds `3`, while the decimal digit count of `1` is `1`,
so the claim demands `4`: `write_indent` over the single frame
`ListItem(Some 1)` leaves `needs_space = 3`, and `3 ≠ 4`. -/
theorem c2_counterexample :
    Writer.write_indent stringSink ⟨"", [Frame.ListItem (some 1)], ⟨"", 0⟩⟩ =
      Except.ok ⟨"", [Frame.ListItem (some 1)], ⟨"", 3⟩⟩ ∧
    (Nat.toDigits 10 1).length + 3 = 4 ∧ (3 : Nat) ≠ 4 := by
  exact ⟨rfl, by decide, by decide⟩

/-- Claim C2: (amended): when `write_indent` processes a `ListItem(Some(n))`
frame it adds `n / 10 + 3` (integer division) to the deferred-space count —
`3` for `n < 10`, `4` for `10 ≤ n < 20`, and so on: a margin that
approximates the width of the `"n. "` marker.  Stated both on the pure
rendering of the frame loop and on `write_indent` itself for a stack
holding exactly that frame. -/
theorem c2_listitem_indent_width (acc : String) (ns n : Nat) (rest : List Frame)
    ( pfxs i : String) :
    indentGo acc ns (Frame.ListItem (some n) :: rest) =
      indentGo acc (ns + (n / 10 + 3)) rest ∧
    Writer.write_indent stringSink ⟨pfxs, [Frame.ListItem (some n)], ⟨i, ns⟩⟩ =
      Except.ok ⟨pfxs, [Frame.ListItem (some n)], ⟨i ++ pfxs, ns + (n / 10 + 3)⟩⟩ :=
  ⟨rfl, rfl⟩

/-- Claim C4: (counterexample): the claim's universal part — "for every event
sequence the accumulated output never ends with a blank line or a trailing
break" — is false: the sequence `[HardBreak, End(Paragraph)]`, which even
terminates in a block-close event, produces the output `"\\\n"`, which ends
with a line feed (`"\\\n" = "\\" ++ "\n"`). -/
theorem c4_counterexample :
    PrettyPrinter.push_events stringSink (PrettyPrinter.new "")
      [Event.HardBreak, Event.End Tag.Paragraph] =
      Except.ok ⟨⟨"", [], ⟨"\\\n", 0⟩⟩, true⟩ ∧
    ("\\\n" : String) = "\\" ++ "\n" :=
  ⟨rfl, rfl⟩

/-- Claim C4: (amended): processing `End(Paragraph)`, `End(Rule)`,
`End(Heading)` or `End(Item)` writes nothing to the output sink and only
sets `needs_break`; consequently a run of any number of such block-close
events leaves the writer — and hence the accumulated output — completely
unchanged, so trailing block-close events can never make the output end
with a blank line or a trailing break. -/
theorem c4_simple_closes_write_nothing :
    (∀ (σ : Type) (S : Sink σ) (p : PrettyPrinter σ) (e : Event),
      isSimpleClose e = true →
      PrettyPrinter.push_event S p e = Except.ok ⟨p.writer, true⟩) ∧
    (∀ (σ : Type) (S : Sink σ) (p : PrettyPrinter σ) (es : List Event),
      (∀ e ∈ es, isSimpleClose e = true) →
      PrettyPrinter.push_events S p es =
        Except.ok ⟨p.writer, if es = [] then p.needs_break else true⟩) :=
  ⟨fun _ S p e h => simple_close_step S p e h,
   fun _ S p es h => simple_close_run S es h p⟩

/-- Witness for C4: the amended theorem applied at a concrete state and the
concrete close run `[End(Paragraph), End(Item)]`. -/
theorem c4_witness :
    PrettyPrinter.push_events stringSink ⟨⟨"", [], ⟨"a", 0⟩⟩, false⟩
      [Event.End Tag.Paragraph, Event.End Tag.Item] =
      Except.ok ⟨⟨"", [], ⟨"a", 0⟩⟩, true⟩ := by
  have h := c4_simple_closes_write_nothing.2 String stringSink
    ⟨⟨"", [], ⟨"a", 0⟩⟩, false⟩ [Event.End Tag.Paragraph, Event.End Tag.Item]
    (by decide)
  simpa using h

/-- Claim C6:: the writer's deferred-space count is reset to zero by every hard
break and every soft break (the pending spaces are dropped, never written:
only `"\n"` resp. `" "` reaches the sink); a non-breaking-space request only
increments the counter without touching the sink; and pending spaces are
materialized — as exactly that many space characters — only when the next
literal text is written. -/
theorem c6_breaks_drop_deferred_spaces :
    (∀ (i : String) (ns : Nat),
      Output.write_hard_break stringSink ⟨i, ns⟩ = Except.ok ⟨i ++ "\n", 0⟩) ∧
    (∀ (i : String) (ns : Nat),
      Output.write_soft_break stringSink ⟨i, ns⟩ = Except.ok ⟨i ++ " ", 0⟩) ∧
    (∀ (σ : Type) (S : Sink σ) (w : Writer σ),
      Writer.write_non_breaking_space S w =
        Except.ok ⟨w.pfx, w.frames, ⟨w.output.inner, w.output.needs_space + 1⟩⟩) ∧
    (∀ (i : String) (ns : Nat) (t : String),
      Output.write_text stringSink ⟨i, ns⟩ t = Except.ok ⟨i ++ spaces ns ++ t, 0⟩) :=
  ⟨fun _ _ => rfl, fun _ _ => rfl, fun _ _ _ => rfl,
   fun i ns t => output_write_text_string i ns t⟩

/-- Claim C9:: `write_non_breaking_space` always returns `Ok` and never writes
to the sink — whatever the sink and whatever the writer state, it merely
increments the deferred-space counter, so it can never produce a sink write
failure. -/
theorem c9_nbsp_never_fails :
    ∀ (σ : Type) (S : Sink σ) (w : Writer σ),
      Writer.write_non_breaking_space S w =
        Except.ok ⟨w.pfx, w.frames, ⟨w.output.inner, w.output.needs_space + 1⟩⟩ :=
  fun _ _ _ => rfl

/-- Claim C10:: `Start(Item)` arriving when the stack top is not a `ListItem`
(a `BlockQuote` on top, or an empty stack) writes nothing to the sink,
leaves `needs_break` (and the whole `Output`, hence any pending deferred
blank line) unchanged, and permanently removes the popped non-`ListItem`
frame when one existed. -/
theorem c10_item_on_foreign_frame :
    (∀ (σ : Type) (S : Sink σ) ( pfxs : String) (rest : List Frame)
        (o : Output σ) (nb : Bool),
      PrettyPrinter.push_event S ⟨⟨pfxs, Frame.BlockQuote :: rest, o⟩, nb⟩
          (Event.Start Tag.Item) =
        Except.ok ⟨⟨pfxs, rest, o⟩, nb⟩) ∧
    (∀ (σ : Type) (S : Sink σ) ( pfxs : String) (o : Output σ) (nb : Bool),
      PrettyPrinter.push_event S ⟨⟨pfxs, [], o⟩, nb⟩ (Event.Start Tag.Item) =
        Except.ok ⟨⟨pfxs, [], o⟩, nb⟩) :=
  ⟨fun _ _ _ _ _ _ => rfl, fun _ _ _ _ _ => rfl⟩

/-- Claim C7:: `push_events` is a sequential fold over `push_event` — processing
a concatenation is processing the first part and then, from the state it
left, the second — and it short-circuits on the first failure: when the
head event fails, the failure is returned unchanged and none of the
remaining events are processed (the result does not depend on them). -/
theorem c7_push_events_fold_short_circuits :
    (∀ (σ : Type) (S : Sink σ) (es₁ es₂ : List Event) (p : PrettyPrinter σ),
      PrettyPrinter.push_events S p (es₁ ++ es₂) =
        Except.bind (PrettyPrinter.push_events S p es₁)
          (fun q => PrettyPrinter.push_events S q es₂)) ∧
    (∀ (σ : Type) (S : Sink σ) (e : Event) (es : List Event)
        (p : PrettyPrinter σ) (f : Unit),
      PrettyPrinter.push_event S p e = Except.error f →
      PrettyPrinter.push_events S p (e :: es) = Except.error f) := by
  refine ⟨fun _ S es₁ es₂ p => push_events_append S es₁ es₂ p, ?_⟩
  intro _ S e es p f h
  simp only [PrettyPrinter.push_events, h]

/-- Witness for C7: against the always-failing sink, pushing
`[Text "a", Text "b"]` stops at the first event's write failure. -/
theorem c7_witness :
    PrettyPrinter.push_events failSink (PrettyPrinter.new_prefixed () "")
      [Event.Text "a", Event.Text "b"] = Except.error () :=
  c7_push_events_fold_short_circuits.2 Unit failSink (Event.Text "a")
    [Event.Text "b"] (PrettyPrinter.new_prefixed () "") () rfl

/-- Claim C5:: the `flush_break` contract.  With `needs_break` false it writes
nothing and only (idempotently) clears the flag; with `needs_break` true it
emits a hard break followed by an indent twice — one physical blank line,
itself prefixed/indented — and clears the flag; every successful flush, on
any sink, leaves `needs_break` false; `needs_break` is false immediately
after construction; and the only events that can turn `needs_break` from
false to true are the block-closing `End` events. -/
theorem c5_flush_break_contract :
    (∀ p : PrettyPrinter String, p.needs_break = false →
      PrettyPrinter.flush_break stringSink p = Except.ok ⟨p.writer, false⟩) ∧
    (∀ ( pfxs : String) (fs : List Frame) (i : String) (ns : Nat),
      PrettyPrinter.flush_break stringSink ⟨⟨pfxs, fs, ⟨i, ns⟩⟩, true⟩ =
        Except.ok ⟨⟨pfxs, fs,
          ⟨i ++ "\n" ++ indentText pfxs fs ++ "\n" ++ indentText pfxs fs,
           indentNs fs⟩⟩, false⟩) ∧
    (∀ (σ : Type) (S : Sink σ) (p p1 : PrettyPrinter σ),
      PrettyPrinter.flush_break S p = Except.ok p1 → p1.needs_break = false) ∧
    (∀ (σ : Type) (write : σ) ( pfxs : String),
      (PrettyPrinter.new_prefixed write pfxs).needs_break = false) ∧
    (∀ (σ : Type) (S : Sink σ) (e : Event) (p q : PrettyPrinter σ),
      p.needs_break = false → PrettyPrinter.push_event S p e = Except.ok q →
      q.needs_break = true → isBlockClose e = true) := by
  refine ⟨fun p h => flush_break_of_false p h,
          fun pfxs fs i ns => flush_break_of_true pfxs fs i ns,
          fun _ S p p1 h => flush_break_ok_nb S p p1 h,
          fun _ _ _ => rfl, ?_⟩
  intro _ S e p q hp h hq
  cases hbc : isBlockClose e with
  | true => rfl
  | false =>
    have := nb_false_preserved S e hbc p q hp h
    rw [this] at hq
    exact Bool.noConfusion hq

/-- Witness for C5: the contract applied at concrete states — a no-op flush
on a clear flag, a blank-line flush on a set flag inside a block quote with
the prefix `"//"`, and `End(Paragraph)` as the event that turned the flag
on. -/
theorem c5_witness :
    PrettyPrinter.flush_break stringSink ⟨⟨"//", [Frame.BlockQuote], ⟨"a", 0⟩⟩, false⟩ =
      Except.ok ⟨⟨"//", [Frame.BlockQuote], ⟨"a", 0⟩⟩, false⟩ ∧
    PrettyPrinter.flush_break stringSink ⟨⟨"//", [Frame.BlockQuote], ⟨"a", 0⟩⟩, true⟩ =
      Except.ok ⟨⟨"//", [Frame.BlockQuote], ⟨"a\n//>\n//>", 1⟩⟩, false⟩ ∧
    isBlockClose (Event.End Tag.Paragraph) = true := by
  refine ⟨c5_flush_break_contract.1 _ rfl, ?_, ?_⟩
  · have h := c5_flush_break_contract.2.1 "//" [Frame.BlockQuote] "a" 0
    exact h.trans (by rfl)
  · exact c5_flush_break_contract.2.2.2.2 String stringSink (Event.End Tag.Paragraph)
      ⟨⟨"", [], ⟨"", 0⟩⟩, false⟩ ⟨⟨"", [], ⟨"", 0⟩⟩, true⟩ rfl rfl rfl

/-- Claim C8:: a `Text(span)` event splits the span on embedded line-feed
characters; the first line is emitted as literal text only (flushing any
pending deferred spaces), and every later line is preceded by a hard break
and a fresh indent before its literal text, so internal breaks are
re-wrapped under the current indentation.  Frames, prefix and `needs_break`
are untouched. -/
theorem c8_text_rewraps_inner_linefeeds ( pfxs : String) (fs : List Frame)
    (i : String) (ns : Nat) (nb : Bool) (text l : String) (ls : List String)
    (h : splitNL text = l :: ls) :
    PrettyPrinter.push_event stringSink ⟨⟨pfxs, fs, ⟨i, ns⟩⟩, nb⟩ (Event.Text text) =
      Except.ok ⟨⟨pfxs, fs,
        ⟨i ++ spaces ns ++ l ++ linesOut (indentText pfxs fs) (indentNs fs) ls, 0⟩⟩,
        nb⟩ := by
  simp only [PrettyPrinter.push_event, h, writer_write_text_string, textFold_string]

/-- Witness for C8: the two-line text `"a\nb"` pushed inside a block quote
with line prefix `"//"`: the second line lands on a fresh, quoted,
prefixed line. -/
theorem c8_witness :
    splitNL "a\nb" = ["a", "b"] ∧
    PrettyPrinter.push_event stringSink ⟨⟨"//", [Frame.BlockQuote], ⟨"", 0⟩⟩, false⟩
        (Event.Text "a\nb") =
      Except.ok ⟨⟨"//", [Frame.BlockQuote], ⟨"a\n//> b", 0⟩⟩, false⟩ := by
  refine ⟨by decide, ?_⟩
  have h := c8_text_rewraps_inner_linefeeds "//" [Frame.BlockQuote] "" 0 false
    "a\nb" "a" ["b"] (by decide)
  exact h.trans (by rfl)

/-- Claim C3:: for an ordered list opened with `Start(List(Some s))` holding
`k` items, the items render with the strictly sequential ordinal markers
`s., s+1., ..., s+k-1.` (the `j`-th marker in `orderedListOutput` is
`toString (s + j) ++ "."`), and after the `k` renders the `ListItem` frame
stores `s + k` — the stored ordinal grows by exactly 1 per rendered item,
independently of anything in the input events (which carry no ordinals). -/
theorem c3_ordered_list_renumbers_sequentially (s k : Nat) :
    PrettyPrinter.push_events stringSink (PrettyPrinter.new "")
        (flatOrderedList s k) =
      Except.ok ⟨⟨"", [Frame.ListItem (some (s + k))],
        ⟨orderedListOutput s k, 0⟩⟩, k != 0⟩ := by
  have h0 : PrettyPrinter.push_event stringSink (PrettyPrinter.new "")
      (Event.Start (Tag.List (some s))) =
      Except.ok ⟨⟨"", [Frame.ListItem (some s)], ⟨"", 0⟩⟩, false⟩ := rfl
  simp only [flatOrderedList, PrettyPrinter.push_events, h0]
  exact flat_items_run s k

end PrettifyCmark
